import Mathlib

/-!
Shallow embedding of the core of the `abedl` downloader:
the playlist index selector (`src/abedl/youtube.py`), the downloader
registry (`src/abedl/registry.py`), and the Keys-for-Kids archive date
locator and batch downloader (`src/abedl/keysforkids.py`).
Strings are modelled as `List Char` where character-level processing
happens; network fetches and the regex/date extraction collaborator are
abstracted as explicit function parameters.
-/

namespace Abedl

/-- Whitespace removed by Python `str.strip()` (the ASCII whitespace set). -/
def pyIsSpace (c : Char) : Bool :=
  c = ' ' || c = '\t' || c = '\n' || c = '\r' || c = '\x0b' || c = '\x0c'

/-- Python `s.strip()`: drop leading and trailing whitespace. -/
def stripWs (cs : List Char) : List Char :=
  ((cs.dropWhile pyIsSpace).reverse.dropWhile pyIsSpace).reverse

/-- Python `s.split(sep)` for a one-character separator: splits on every
occurrence, keeping empty pieces (`"".split(',') = ['']`). -/
def splitOnChar (sep : Char) : List Char → List (List Char)
  | [] => [[]]
  | c :: cs =>
    match splitOnChar sep cs with
    | [] => [[c]]
    | h :: t => if c = sep then [] :: h :: t else (c :: h) :: t

/-- Decimal value of a digit run, most significant first. -/
def digitsValAux (acc : Nat) : List Char → Nat
  | [] => acc
  | c :: cs => digitsValAux (acc * 10 + (c.toNat - '0'.toNat)) cs

/-- A non-empty run of ASCII decimal digits. -/
def digitsOk (ds : List Char) : Bool :=
  !ds.isEmpty && ds.all (fun c => c.isDigit)

/-- Python `int(s)`: strips whitespace, then an optional sign followed by a
non-empty run of decimal digits; anything else raises `ValueError`, modelled
as `none`.  (CPython additionally accepts digit-grouping underscores and
non-ASCII decimal digits; no input in this development uses those.) -/
def pyInt? (s : List Char) : Option Int :=
  match stripWs s with
  | '+' :: ds => if digitsOk ds then some ((digitsValAux 0 ds : Nat) : Int) else none
  | '-' :: ds => if digitsOk ds then some (-((digitsValAux 0 ds : Nat) : Int)) else none
  | ds => if digitsOk ds then some ((digitsValAux 0 ds : Nat) : Int) else none

/-- Python `range(lo, hi + 1)` as a list (empty when `lo > hi`). -/
def intRange (lo hi : Int) : List Int :=
  (List.range (hi + 1 - lo).toNat).map (fun k => lo + (k : Int))

/-- One comma-separated token of a playlist-items expression
(`youtube.py` lines 199-213): a token containing `-` is parsed as an
inclusive range `lo-hi`; otherwise as a single integer; a parse failure
skips the token with a printed warning (modelled as the empty contribution). -/
def parseToken (part : List Char) : List Int :=
  if part.contains '-' then
    match splitOnChar '-' part with
    | [a, b] =>
      match pyInt? a, pyInt? b with
      | some lo, some hi => intRange lo hi
      | _, _ => []
    | _ => []
  else
    match pyInt? part with
    | some n => [n]
    | none => []

/-- Insert into a strictly ascending list, dropping duplicates. -/
def insertSorted (x : Int) : List Int → List Int
  | [] => [x]
  | y :: ys =>
    if x < y then x :: y :: ys
    else if x = y then y :: ys
    else y :: insertSorted x ys

/-- Python `sorted(set(l))`: the strictly ascending enumeration of the
distinct elements of `l`. -/
def sortedUnique (l : List Int) : List Int := l.foldr insertSorted []

/-- Model of `YouTubeDownloader._parse_playlist_items` (`youtube.py` lines 193-215):
split on commas, strip each part, parse each token, then deduplicate and
sort ascending.  An empty expression yields no indices. -/
def parse_playlist_items (s : List Char) : List Int :=
  if s.isEmpty then []
  else sortedUnique ((splitOnChar ',' s).foldr (fun p acc => parseToken (stripWs p) ++ acc) [])

/-- The index sequence the selector actually applies to a playlist of `N`
entries: the parsed, deduplicated, sorted indices restricted by the range
check `1 <= i <= len(videos)` of `_filter_playlist_by_range`
(`youtube.py` lines 227-231). -/
def applied_indices (s : List Char) (N : Nat) : List Int :=
  (parse_playlist_items s).filter (fun i => decide (1 ≤ i ∧ i ≤ (N : Int)))

/-- The fields of `DownloadOptions` (`base.py` lines 51-53) consumed by the
playlist selector.  `playlist_items` is `Optional[str]`. -/
structure DownloadOptions where
  playlist_start : Int := 1
  playlist_end : Option Int := none
  playlist_items : Option (List Char) := none

/-- Python `x or dflt` for an `Optional[int]`: `None` and `0` are falsy. -/
def pyOrInt (x : Option Int) (dflt : Int) : Int :=
  match x with
  | none => dflt
  | some v => if v = 0 then dflt else v

/-- The loop of `_filter_playlist_by_range` over explicit indices
(`youtube.py` lines 226-232): append `videos[i-1]` when `1 <= i <= len(videos)`,
print a warning (drop the index) otherwise. -/
def select_by_indices (videos : List α) (indices : List Int) : List α :=
  indices.flatMap (fun i =>
    if 1 ≤ i ∧ i ≤ (videos.length : Int)
    then (videos.get? (i - 1).toNat).toList
    else [])

/-- The start/end window fallback of `_filter_playlist_by_range`
(`youtube.py` lines 234-246): 0-based `start = max(1, playlist_start) - 1`,
`end = min(len(videos), playlist_end or len(videos))`; empty (with a printed
warning) when `start >= len(videos)` or `start >= end`, otherwise the Python
slice `videos[start:end]`. -/
def window_select (opts : DownloadOptions) (videos : List α) : List α :=
  let start : Int := max 1 opts.playlist_start - 1
  let stop : Int := min (videos.length : Int) (pyOrInt opts.playlist_end (videos.length : Int))
  if (videos.length : Int) ≤ start then []
  else if stop ≤ start then []
  else (videos.take stop.toNat).drop start.toNat

/-- Model of `YouTubeDownloader._filter_playlist_by_range` (`youtube.py` lines 217-246):
empty playlists pass through; a truthy `playlist_items` whose parse yields a
non-empty index list selects by indices; otherwise the start/end window is
used. -/
def filter_playlist_by_range (opts : DownloadOptions) (videos : List α) : List α :=
  if videos.isEmpty then videos
  else
    match opts.playlist_items with
    | none => window_select opts videos
    | some s =>
      if s.isEmpty then window_select opts videos
      else
        let indices := parse_playlist_items s
        if indices.isEmpty then window_select opts videos
        else select_by_indices videos indices

/-- A registered downloader class (`registry.py`): a constructor taking the
download options and the instance method `can_handle`. -/
structure HandlerClass (Opts : Type) (Inst : Type) where
  make : Opts → Inst
  can_handle : Inst → String → Bool

/-- State of `DownloaderRegistry._downloaders`: a Python `dict` from name to class,
modelled as an association list in iteration (insertion) order. -/
abbrev Registry (Opts Inst : Type) : Type := List (String × HandlerClass Opts Inst)

/-- The iteration order of the registry's names (`dict` key order). -/
def regNames (reg : Registry Opts Inst) : List String := reg.map Prod.fst

/-- Model of `DownloaderRegistry.register` (`registry.py` lines 30-38):
`self._downloaders[name] = downloader_class`.  Python dict assignment keeps
an existing key at its original position and appends a fresh key at the end. -/
def register (reg : Registry Opts Inst) (name : String) (cls : HandlerClass Opts Inst) :
    Registry Opts Inst :=
  if (regNames reg).contains name
  then reg.map (fun e => if e.1 = name then (name, cls) else e)
  else reg ++ [(name, cls)]

/-- Model of `DownloaderRegistry.unregister` (`registry.py` lines 40-48):
`del self._downloaders[name]` when present, no-op otherwise. -/
def unregister (reg : Registry Opts Inst) (name : String) : Registry Opts Inst :=
  reg.filter (fun e => decide (e.1 ≠ name))

/-- The class currently registered under `name`, if any. -/
def lookupClass (reg : Registry Opts Inst) (name : String) :
    Option (HandlerClass Opts Inst) :=
  (reg.find? (fun e => e.1 = name)).map Prod.snd

/-- Model of `DownloaderRegistry.get_downloader_for_url` (`registry.py` lines 50-69):
iterate the dict in order, instantiate each class with the options, return
the first instance whose `can_handle(url)` is true, and raise
`DownloadError(f"No downloader found for URL: {url}")` when none matches. -/
def get_downloader_for_url (reg : Registry Opts Inst) (url : String) (opts : Opts) :
    Except String Inst :=
  match reg with
  | [] => .error ("No downloader found for URL: " ++ url)
  | (_, cls) :: rest =>
    let downloader := cls.make opts
    if cls.can_handle downloader url then .ok downloader
    else get_downloader_for_url rest url opts

/-- The archive's base listing URL (`keysforkids.py` line 226). -/
def baseArchiveUrl : String := "https://www.keysforkids.org/podcasts/keys-for-kids/"

/-- The URL of archive page `n` (`keysforkids.py` lines 225-228): page 1 is
the base listing, page `n > 1` appends `page/{n}/`. -/
def archivePageUrl (page : Int) : String :=
  if page = 1 then baseArchiveUrl
  else baseArchiveUrl ++ "page/" ++ toString page ++ "/"

/-- The fast-path date-query URL (`keysforkids.py` line 256). -/
def dateSearchUrl (dateStr : String) : String :=
  baseArchiveUrl ++ "?date=" ++ dateStr

/-- Model of `check_page` (`keysforkids.py` lines 223-252): fetch one archive page;
any fetch exception is swallowed (`except Exception: pass`) and the page
reports `None`; otherwise search the page text for the target date literal
and the first devotional `href` after it.  The fetch is an explicit
parameter (`requests.get` + `raise_for_status`, an exception modelled as
`Except.error`); `extract` models the date-literal find plus the `re.search`
for the devotional link in the following 1000-character context, exactly the
text search shared by the fast path and the probe path. -/
def check_page (fetch : String → Except Unit String) (extract : String → Option String)
    (page : Int) : Option String :=
  match fetch (archivePageUrl page) with
  | .error _ => none
  | .ok html => extract html

/-- The page estimate (`keysforkids.py` lines 274-283):
`estimated_page = max(1, days_ago // 10)` capped at `max_pages`
(Python `//` is floor division). -/
def estimated_page (daysAgo maxPages : Int) : Int :=
  min (max 1 (Int.fdiv daysAgo 10)) maxPages

/-- One iteration of the expanding-radius loop (`keysforkids.py` lines
292-296): append `estimate - offset` when it stays `>= 1`, then
`estimate + offset` when it stays `<= max_pages`. -/
def probe_block (estimate maxPages off : Int) : List Int :=
  (if 1 ≤ estimate - off then [estimate - off] else []) ++
  (if estimate + off ≤ maxPages then [estimate + off] else [])

/-- The pages appended by `for offset in range(1, n+1)` in order. -/
def probe_offsets (estimate maxPages : Int) : Nat → List Int
  | 0 => []
  | Nat.succ k => probe_offsets estimate maxPages k ++ probe_block estimate maxPages ((k : Int) + 1)

/-- Model of `pages_to_check` (`keysforkids.py` lines 289-296): the estimate first,
then the expanding radius for offsets 1..5. -/
def pages_to_check (estimate maxPages : Int) : List Int :=
  estimate :: probe_offsets estimate maxPages 5

/-- All pages the search may probe: `pages_to_check`, then page 1 once more
when it was not already in the list (`keysforkids.py` lines 304-308). -/
def full_probe_list (estimate maxPages : Int) : List Int :=
  pages_to_check estimate maxPages ++
    (if (1 : Int) ∈ pages_to_check estimate maxPages then [] else [1])

/-- Model of the loop `for page in pages_to_check: result = check_page(page);
if result: return result` (`keysforkids.py` lines 298-302): the first page
reporting a link. -/
def firstSome (f : Int → Option String) : List Int → Option String
  | [] => none
  | p :: ps =>
    match f p with
    | some r => some r
    | none => firstSome f ps

/-- Model of `KeysForKidsDownloader.get_devotional_url_by_date` (`keysforkids.py`
lines 206-313).  The whole body sits in a `try` whose `except` returns
`None`; the only statement inside it that can raise is the fast-path fetch
(`check_page` swallows its own exceptions), so a fast-path fetch exception
returns `None` directly.  Otherwise: if the fast-path page yields a link,
return it; else probe `pages_to_check` for the estimate derived from
`daysAgo`, and finally page 1 when it was not among the probed pages. -/
def get_devotional_url_by_date (fetch : String → Except Unit String)
    (extract : String → Option String) (dateStr : String)
    (daysAgo maxPages : Int) : Option String :=
  match fetch (dateSearchUrl dateStr) with
  | .error _ => none
  | .ok html =>
    match extract html with
    | some url => some url
    | none =>
      let estimate := estimated_page daysAgo maxPages
      let pages := pages_to_check estimate maxPages
      match firstSome (check_page fetch extract) pages with
      | some r => some r
      | none =>
        if (1 : Int) ∈ pages then none
        else check_page fetch extract 1

/-- The claim's description of the probe order for one radius step: both
`estimate - k` and `estimate + k`, each dropped when outside `[1, maxPages]`. -/
def claim_block (estimate maxPages k : Int) : List Int :=
  [estimate - k, estimate + k].filter (fun p => decide (1 ≤ p ∧ p ≤ maxPages))

/-- The claim-side radius expansion for offsets `1..n`. -/
def claim_offsets (estimate maxPages : Int) : Nat → List Int
  | 0 => []
  | Nat.succ k => claim_offsets estimate maxPages k ++ claim_block estimate maxPages ((k : Int) + 1)

/-- The probe order exactly as the claim words it: the estimate, then
`estimate - k` and `estimate + k` alternately for `k = 1..5` with candidates
outside `[1, maxPages]` dropped, then page 1 once more when not already
probed. -/
def claim_probe_order (estimate maxPages : Int) : List Int :=
  let core := estimate :: claim_offsets estimate maxPages 5
  core ++ (if (1 : Int) ∈ core then [] else [1])

/-- Model of `KeysForKidsDownloader.download_by_date` (`keysforkids.py` lines
315-338): locate the devotional URL for the date (`locate` abstracts
`get_devotional_url_by_date`, which never raises); `None` becomes "not
found"; otherwise `download_video` runs with no surrounding `try`, so its
exception (modelled as `Except.error`) propagates. -/
def download_by_date (locate : Int → Option String)
    (downloadVideo : String → Except Unit String) (day : Int) :
    Except Unit (Option String) :=
  match locate day with
  | none => .ok none
  | some url =>
    match downloadVideo url with
    | .error e => .error e
    | .ok path => .ok (some path)

/-- The `while current_date <= end_date` loop of `download_date_range`
(`keysforkids.py` lines 354-366), by recursion on the number of remaining
days: a `None` from `download_by_date` is skipped, a path is accumulated,
and an exception propagates out of the loop. -/
def download_range_go (locate : Int → Option String)
    (downloadVideo : String → Except Unit String) :
    Nat → Int → Except Unit (List String)
  | 0, _ => .ok []
  | Nat.succ n, day =>
    match download_by_date locate downloadVideo day with
    | .error e => .error e
    | .ok none => download_range_go locate downloadVideo n (day + 1)
    | .ok (some p) =>
      match download_range_go locate downloadVideo n (day + 1) with
      | .error e => .error e
      | .ok rest => .ok (p :: rest)

/-- Model of `KeysForKidsDownloader.download_date_range` (`keysforkids.py` lines
340-366): one `download_by_date` per calendar day from `start` to `stop`
inclusive, in ascending order.  Days are modelled as integers (day numbers);
`timedelta(days=1)` is `+ 1`. -/
def download_date_range (locate : Int → Option String)
    (downloadVideo : String → Except Unit String) (start stop : Int) :
    Except Unit (List String) :=
  download_range_go locate downloadVideo (stop + 1 - start).toNat start

/-- The inclusive ascending day sequence `start, start+1, ..., stop`. -/
def daysListGo : Nat → Int → List Int
  | 0, _ => []
  | Nat.succ n, d => d :: daysListGo n (d + 1)

/-- The calendar days a range batch iterates, in order. -/
def daysList (start stop : Int) : List Int :=
  daysListGo (stop + 1 - start).toNat start

/-- Local copy of `Except.toOption`. -/
def exceptOk : Except Unit α → Option α
  | .ok a => some a
  | .error _ => none

/-- ASCII lowercasing, the effect of `re.IGNORECASE` on these all-ASCII,
all-lowercase patterns: matching a pattern case-insensitively against `url`
is matching it case-sensitively against the ASCII-lowercased `url`.
(Unicode case folding corners of `re.IGNORECASE` are not modelled; no claim
depends on them.) -/
def lowerChar (c : Char) : Char :=
  if 65 ≤ c.toNat ∧ c.toNat ≤ 90 then Char.ofNat (c.toNat + 32) else c

/-- ASCII-lowercase a character list. -/
def lowerL (cs : List Char) : List Char := cs.map lowerChar

/-- The character class `[\w-]` on lowercased ASCII input: `\w` is a letter,
digit or underscore, plus the literal hyphen.  (Python's `\w` also accepts
non-ASCII word characters; no claim depends on them.) -/
def isWordDash (c : Char) : Bool := c.isAlphanum || c = '_' || c = '-'

/-- Consume a literal at the head of the input or fail. -/
def dropLit (lit cs : List Char) : Option (List Char) :=
  if lit.isPrefixOf cs then some (cs.drop lit.length) else none

/-- Compiled `(?:https?://)?`: optionally consume a scheme.  `"https://"` and
`"http://"` are never simultaneously prefixes, so this is deterministic. -/
def optScheme (cs : List Char) : List Char :=
  match dropLit "https://".data cs with
  | some r => r
  | none =>
    match dropLit "http://".data cs with
    | some r => r
    | none => cs

/-- Compiled `(?:www\.)?`: optionally consume `"www."`. -/
def optWww (cs : List Char) : List Char :=
  match dropLit "www.".data cs with
  | some r => r
  | none => cs

/-- The trailing sub-expression of each source pattern. -/
inductive TailKind : Type
  | wordDash               -- `[\w-]+`
  | digits                 -- `\d+`
  | wordDashSlashWordDash  -- `[\w-]+/[\w-]+`
  deriving DecidableEq

/-- Boolean match of a trailing sub-expression at the head of the remaining
input (`re.match` only needs some match, so `[\w-]+` and `\d+` reduce to a
one-character test; `[\w-]+/[\w-]+` takes the maximal first run since `[\w-]`
excludes `/`). -/
def tailMatch : TailKind → List Char → Bool
  | .wordDash, cs =>
    match cs with
    | c :: _ => isWordDash c
    | [] => false
  | .digits, cs =>
    match cs with
    | c :: _ => c.isDigit
    | [] => false
  | .wordDashSlashWordDash, cs =>
    !(cs.takeWhile isWordDash).isEmpty &&
      (match cs.dropWhile isWordDash with
       | d :: c :: _ => d = '/' && isWordDash c
       | _ => false)

/-- The common shape of every `YOUTUBE_PATTERNS` / `CBN_PATTERNS` regex:
an optional scheme, an optional `www.` (when the pattern has that group),
a literal, and a trailing sub-expression. -/
structure UrlPattern where
  www_opt : Bool
  lit : List Char
  tl : TailKind
  deriving DecidableEq

/-- Run a compiled pattern against (lowercased) input, anchored at the
start, as `re.match` does. -/
def runPattern (p : UrlPattern) (cs : List Char) : Bool :=
  match dropLit p.lit (if p.www_opt then optWww (optScheme cs) else optScheme cs) with
  | none => false
  | some rest => tailMatch p.tl rest

/-- Model of `YouTubeDownloader.YOUTUBE_PATTERNS` (`youtube.py` lines 37-44), each
regex hand-compiled into its `UrlPattern`, in source order. -/
def YOUTUBE_PATTERNS : List UrlPattern :=
  [ ⟨true, "youtube.com/watch?v=".data, .wordDash⟩,
    ⟨true, "youtube.com/playlist?list=".data, .wordDash⟩,
    ⟨false, "youtu.be/".data, .wordDash⟩,
    ⟨true, "youtube.com/channel/".data, .wordDash⟩,
    ⟨true, "youtube.com/@".data, .wordDash⟩,
    ⟨true, "youtube.com/c/".data, .wordDash⟩ ]

/-- Model of `CBNDownloader.CBN_PATTERNS` (`cbn.py` lines 38-42), hand-compiled. -/
def CBN_PATTERNS : List UrlPattern :=
  [ ⟨true, "cbn.com/video/".data, .wordDash⟩,
    ⟨true, "cbn.com/video/flying-house-episode-".data, .digits⟩,
    ⟨true, "cbn.com/shows/".data, .wordDashSlashWordDash⟩ ]

/-- Model of `YouTubeDownloader.can_handle` (`youtube.py` lines 109-111):
`any(re.match(pattern, url, re.IGNORECASE) for pattern in YOUTUBE_PATTERNS)`. -/
def youtube_can_handle (url : String) : Bool :=
  YOUTUBE_PATTERNS.any (fun p => runPattern p (lowerL url.data))

/-- Model of `CBNDownloader.can_handle` (`cbn.py` lines 104-106). -/
def cbn_can_handle (url : String) : Bool :=
  CBN_PATTERNS.any (fun p => runPattern p (lowerL url.data))

/-- Characters allowed in a URL scheme by `urllib.parse`. -/
def isSchemeChar (c : Char) : Bool :=
  c.isAlphanum || c = '+' || c = '-' || c = '.'

/-- The `netloc` component of `urllib.parse.urlparse`: strip a leading
`scheme:` (a non-empty run of scheme characters starting with a letter,
directly followed by `:`); the netloc is present only when the remainder
starts with `//` and extends to the next `/`, `?` or `#`. -/
def urlparse_netloc (url : String) : List Char :=
  let cs := url.data
  let head := cs.takeWhile isSchemeChar
  let rest := cs.dropWhile isSchemeChar
  let afterScheme :=
    match rest with
    | ':' :: r =>
      if (match head with | c :: _ => c.isAlpha | [] => false)
      then r else cs
    | _ => cs
  match afterScheme with
  | '/' :: '/' :: r => r.takeWhile (fun c => !(c = '/' || c = '?' || c = '#'))
  | _ => []

/-- Python `needle in hay` for strings: contiguous-substring containment. -/
def containsSub (needle : List Char) : List Char → Bool
  | [] => needle.isEmpty
  | c :: cs => needle.isPrefixOf (c :: cs) || containsSub needle cs

/-- Model of `KeysForKidsDownloader.can_handle` (`keysforkids.py` lines 26-29):
`'keysforkids.org' in urlparse(url).netloc` — a case-sensitive substring
test on the parsed host, not a regex match. -/
def kfk_can_handle (url : String) : Bool :=
  containsSub "keysforkids.org".data (urlparse_netloc url)

/-- The language of `(?:https?://)?`: empty, `http://` or `https://`. -/
def SchemePart (s : List Char) : Prop :=
  s = [] ∨ s = "http://".data ∨ s = "https://".data

/-- The language of the optional `www.` group: empty always; `www.` only
when the pattern carries the group. -/
def WwwPart (allowed : Bool) (s : List Char) : Prop :=
  s = [] ∨ (allowed = true ∧ s = "www.".data)

/-- The language of a trailing sub-expression. -/
def TailLang : TailKind → List Char → Prop
  | .wordDash, s => s ≠ [] ∧ ∀ c ∈ s, isWordDash c = true
  | .digits, s => s ≠ [] ∧ ∀ c ∈ s, c.isDigit = true
  | .wordDashSlashWordDash, s =>
    ∃ a b, s = a ++ '/' :: b ∧ a ≠ [] ∧ b ≠ [] ∧
      (∀ c ∈ a, isWordDash c = true) ∧ (∀ c ∈ b, isWordDash c = true)

/-- The full language of a compiled pattern: a scheme part, a `www.` part,
the literal and a trailing part, concatenated. -/
def PatMatches (p : UrlPattern) (s : List Char) : Prop :=
  ∃ sc w t, SchemePart sc ∧ WwwPart p.www_opt w ∧ TailLang p.tl t ∧
    s = sc ++ w ++ p.lit ++ t

/-! Concrete fixtures used to instantiate the theorems below on closed
inputs. -/

/-- A handler class whose instances accept every URL (instance value 1). -/
def clsAcceptAll1 : HandlerClass Unit Nat := ⟨fun _ => 1, fun _ _ => true⟩

/-- A handler class whose instances accept every URL (instance value 2). -/
def clsAcceptAll2 : HandlerClass Unit Nat := ⟨fun _ => 2, fun _ _ => true⟩

/-- A handler class whose instances reject every URL. -/
def clsRejectAll : HandlerClass Unit Nat := ⟨fun _ => 3, fun _ _ => false⟩

/-- A two-entry registry in which both handlers match every URL. -/
def sampleRegAB : Registry Unit Nat := [("a", clsAcceptAll1), ("b", clsAcceptAll2)]

/-- A one-entry registry whose handler matches nothing. -/
def sampleRegC : Registry Unit Nat := [("c", clsRejectAll)]

/-- A fetch for which the fast-path date query raises and every archive page
fetch succeeds with body `"PAGE"`. -/
def cexFetch : String → Except Unit String :=
  fun u => if u = dateSearchUrl "2025-01-01" then .error () else .ok "PAGE"

/-- An extraction that finds the target date and a devotional link on body
`"PAGE"` and nothing anywhere else. -/
def cexExtract : String → Option String :=
  fun h => if h = "PAGE" then some "https://www.keysforkids.org/podcast/keys-for-kids/x/" else none

/-- A fetch that succeeds everywhere with a body containing no date match. -/
def okFetch : String → Except Unit String := fun _ => .ok "EMPTY"

/-- An extraction that never finds the date. -/
def noneExtract : String → Option String := fun _ => none

/-- A locator for which day 1 resolves to "not found" and every other day
resolves to the devotional page `"u"`. -/
def wLocate : Int → Option String :=
  fun d => if d = 1 then none else some "u"

/-- A download that always succeeds, returning the page URL as the path. -/
def okDownload : String → Except Unit String := fun u => .ok u

/-- A locator that finds a page for every day; day 1 resolves to the page
`"bad"`, the others to `"good"`. -/
def cexLocate : Int → Option String :=
  fun d => if d = 1 then some "bad" else some "good"

/-- A download that raises on page `"bad"` and succeeds elsewhere. -/
def cexDownload : String → Except Unit String :=
  fun u => if u = "bad" then .error () else .ok u

/-- Options `DownloadOptions(playlist_start=3, playlist_end=6)`, no items string. -/
def optsWindow36 : DownloadOptions := ⟨3, some 6, none⟩

/-- Options `DownloadOptions(playlist_items="2,5")` with the default window. -/
def optsItems25 : DownloadOptions := ⟨1, none, some "2,5".data⟩

/-- A URL with every ASCII uppercase letter lowered. -/
def lowerStr (url : String) : String := String.mk (lowerL url.data)

/-! Supporting lemmas for the playlist index selector. -/

theorem sortedUnique_cons (x : Int) (l : List Int) :
    sortedUnique (x :: l) = insertSorted x (sortedUnique l) := rfl

theorem mem_insertSorted {x y : Int} {l : List Int} :
    y ∈ insertSorted x l ↔ y = x ∨ y ∈ l := by
  induction l with
  | nil => simp [insertSorted]
  | cons z zs ih =>
    by_cases h1 : x < z
    · simp [insertSorted, h1]
    · by_cases h2 : x = z
      · subst h2
        have hz : insertSorted x (x :: zs) = x :: zs := by simp [insertSorted]
        rw [hz]
        simp only [List.mem_cons]
        tauto
      · simp only [insertSorted, if_neg h1, if_neg h2, List.mem_cons, ih]
        tauto

theorem pairwise_insertSorted {x : Int} {l : List Int}
    (h : l.Pairwise (· < ·)) : (insertSorted x l).Pairwise (· < ·) := by
  induction l with
  | nil => simp [insertSorted]
  | cons z zs ih =>
    rcases List.pairwise_cons.mp h with ⟨hz, hzs⟩
    by_cases h1 : x < z
    · simp only [insertSorted, if_pos h1]
      refine List.pairwise_cons.mpr ⟨?_, h⟩
      intro b hb
      rcases List.mem_cons.mp hb with rfl | hb
      · exact h1
      · exact lt_trans h1 (hz b hb)
    · by_cases h2 : x = z
      · simpa [insertSorted, h1, h2] using h
      · simp only [insertSorted, if_neg h1, if_neg h2]
        refine List.pairwise_cons.mpr ⟨?_, ih hzs⟩
        intro b hb
        rcases mem_insertSorted.mp hb with rfl | hb
        · omega
        · exact hz b hb

theorem sortedUnique_pairwise (l : List Int) :
    (sortedUnique l).Pairwise (· < ·) := by
  induction l with
  | nil => simp [sortedUnique]
  | cons x xs ih => exact pairwise_insertSorted ih

theorem parse_playlist_items_pairwise (s : List Char) :
    (parse_playlist_items s).Pairwise (· < ·) := by
  unfold parse_playlist_items
  split
  · simp
  · exact sortedUnique_pairwise _

theorem flatMap_filter_eq {α β : Type} (p : α → Bool) (f : α → List β) (l : List α) :
    (l.filter p).flatMap f = l.flatMap (fun a => if p a = true then f a else []) := by
  induction l with
  | nil => rfl
  | cons a l ih =>
    by_cases h : p a = true <;> simp [List.filter_cons, h, ih]

/-- C1: for every selection expression string and entry count `N`, the index
sequence the selector actually applies — the parsed, deduplicated, sorted
indices restricted to the range check — is strictly ascending, duplicate
free, and contained in `[1, N]`; and the selector's index branch outputs
exactly the entries those applied indices name. -/
theorem applied_indices_strictly_ascending_in_range (s : List Char) (N : Nat) :
    (applied_indices s N).Pairwise (· < ·) ∧
    (applied_indices s N).Nodup ∧
    (∀ i ∈ applied_indices s N, 1 ≤ i ∧ i ≤ (N : Int)) ∧
    (∀ (α : Type) (videos : List α), videos.length = N →
      select_by_indices videos (parse_playlist_items s) =
        (applied_indices s N).flatMap (fun i => (videos.get? (i - 1).toNat).toList)) := by
  have hpair : (applied_indices s N).Pairwise (· < ·) := by
    unfold applied_indices
    exact (parse_playlist_items_pairwise s).filter _
  refine ⟨hpair, hpair.imp (fun h => ne_of_lt h), ?_, ?_⟩
  · intro i hi
    unfold applied_indices at hi
    have := List.of_mem_filter hi
    exact of_decide_eq_true this
  · intro α videos hlen
    subst hlen
    unfold applied_indices
    rw [flatMap_filter_eq]
    unfold select_by_indices
    apply List.flatMap_congr
    intro i _
    by_cases h : 1 ≤ i ∧ i ≤ (videos.length : Int) <;> simp [h]

/-- C1 witness: the theorem instantiated on the expression `"1,3,5-7,10"`
over 10 entries, with the membership hypothesis discharged at index 3. -/
theorem applied_indices_strictly_ascending_in_range_witness :
    (applied_indices "1,3,5-7,10".data 10).Pairwise (· < ·) ∧
    (1 ≤ (3 : Int) ∧ (3 : Int) ≤ (10 : Int)) ∧
    select_by_indices [0, 1, 2, 3, 4, 5, 6, 7, 8, 9] (parse_playlist_items "1,3,5-7,10".data) =
      (applied_indices "1,3,5-7,10".data 10).flatMap
        (fun i => (([0, 1, 2, 3, 4, 5, 6, 7, 8, 9] : List Nat).get? (i - 1).toNat).toList) :=
  ⟨(applied_indices_strictly_ascending_in_range "1,3,5-7,10".data 10).1,
   (applied_indices_strictly_ascending_in_range "1,3,5-7,10".data 10).2.2.1 3 (by decide),
   (applied_indices_strictly_ascending_in_range "1,3,5-7,10".data 10).2.2.2 Nat _ (by decide)⟩

/-- C6: the three concrete parses of the spec: `"1,3,5-7,10"` yields
`[1,3,5,6,7,10]`, `"5-8,1,3"` yields `[1,3,5,6,7,8]` (dedup + sort), and
`"1,invalid,3"` yields `[1,3]` with the invalid token skipped. -/
theorem parse_playlist_items_examples :
    parse_playlist_items "1,3,5-7,10".data = [1, 3, 5, 6, 7, 10] ∧
    parse_playlist_items "5-8,1,3".data = [1, 3, 5, 6, 7, 8] ∧
    parse_playlist_items "1,invalid,3".data = [1, 3] := by
  refine ⟨by decide, by decide, by decide⟩

/-- C4: whenever a selection expression is supplied and yields at least one
valid (in-range) index, the selector's output is the expression selection
alone, and the start/end window fields are ignored entirely: any window
produces the same output. -/
theorem expression_precedes_window (α : Type) (opts : DownloadOptions)
    (videos : List α) (s : List Char)
    (hitems : opts.playlist_items = some s)
    (hvalid : ∃ i ∈ parse_playlist_items s, 1 ≤ i ∧ i ≤ (videos.length : Int)) :
    filter_playlist_by_range opts videos = select_by_indices videos (parse_playlist_items s) ∧
    ∀ (ps : Int) (pe : Option Int),
      filter_playlist_by_range (⟨ps, pe, opts.playlist_items⟩ : DownloadOptions) videos =
        filter_playlist_by_range opts videos := by
  obtain ⟨i, hmem, hlo, hhi⟩ := hvalid
  have hvne : videos.isEmpty = false := by
    cases videos with
    | nil => simp at hhi; omega
    | cons a l => rfl
  have hsne : s.isEmpty = false := by
    cases s with
    | nil => simp [parse_playlist_items] at hmem
    | cons c cs => rfl
  have hpne : (parse_playlist_items s).isEmpty = false := by
    cases hp : parse_playlist_items s with
    | nil => rw [hp] at hmem; simp at hmem
    | cons a l => rfl
  constructor
  · simp [filter_playlist_by_range, hitems, hvne, hsne, hpne]
  · intro ps pe
    simp [filter_playlist_by_range, hitems, hvne, hsne, hpne]

/-- C4 witness: with items `"2,5"` over six entries the selection is
entries 2 and 5, regardless of the window defaults. -/
theorem expression_precedes_window_witness :
    optsItems25.playlist_items = some "2,5".data ∧
    filter_playlist_by_range optsItems25 [10, 20, 30, 40, 50, 60] = [20, 50] := by
  have h := expression_precedes_window Nat optsItems25 [10, 20, 30, 40, 50, 60]
    "2,5".data rfl ⟨2, by decide, by decide⟩
  exact ⟨rfl, h.1.trans (by decide)⟩

/-- C5: with no selection expression, window selection returns the Python
slice from 0-based `max(1, playlist_start) - 1` to
`min(N, playlist_end or N)` — the entries at 1-based positions
`max(1, playlist_start)` through `min(N, playlist_end or N)` inclusive, in
original order — and is empty (without error) whenever the 0-based start is
`≥ N` or `≥` the effective end. -/
theorem window_selection_behavior (α : Type) (opts : DownloadOptions)
    (videos : List α) (hitems : opts.playlist_items = none) :
    (((videos.length : Int) ≤ max 1 opts.playlist_start - 1 ∨
        min (videos.length : Int) (pyOrInt opts.playlist_end (videos.length : Int)) ≤
          max 1 opts.playlist_start - 1) →
      filter_playlist_by_range opts videos = []) ∧
    (max 1 opts.playlist_start - 1 < (videos.length : Int) →
      max 1 opts.playlist_start - 1 <
        min (videos.length : Int) (pyOrInt opts.playlist_end (videos.length : Int)) →
      filter_playlist_by_range opts videos =
        (videos.take (min (videos.length : Int)
            (pyOrInt opts.playlist_end (videos.length : Int))).toNat).drop
          (max 1 opts.playlist_start - 1).toNat) := by
  have hstart : 1 ≤ max 1 opts.playlist_start := le_max_left _ _
  cases hv : videos.isEmpty with
  | true =>
    have hnil : videos = [] := List.isEmpty_iff.mp hv
    subst hnil
    constructor
    · intro _
      simp [filter_playlist_by_range, hitems]
    · intro hlt _
      simp only [List.length_nil, Nat.cast_zero] at hlt
      omega
  | false =>
    have hred : filter_playlist_by_range opts videos = window_select opts videos := by
      simp [filter_playlist_by_range, hitems, hv]
    rw [hred]
    unfold window_select
    constructor
    · intro h
      rcases h with h | h
      · rw [if_pos h]
      · by_cases h2 : (videos.length : Int) ≤ max 1 opts.playlist_start - 1
        · rw [if_pos h2]
        · rw [if_neg h2, if_pos h]
    · intro h1 h2
      rw [if_neg (by omega), if_neg (by omega)]

/-- C5 witness: `start=3, end=6` over 10 entries yields exactly entries 3-6
(four entries). -/
theorem window_selection_behavior_witness :
    optsWindow36.playlist_items = none ∧
    filter_playlist_by_range optsWindow36 (List.range 10) = [2, 3, 4, 5] := by
  have h := (window_selection_behavior Nat optsWindow36 (List.range 10) rfl).2
    (by decide) (by decide)
  exact ⟨rfl, h.trans (by decide)⟩

/-! Supporting lemmas and claim theorems for the downloader registry. -/

/-- C2: URL resolution iterates the registered handlers in registration
order, instantiates each class with the given options, and returns the first
instance whose `can_handle(url)` is true — in particular, when several
registered handlers match the URL, the one registered first wins — and when
no registered handler matches, it fails with the "no handler" error rather
than returning anything. -/
theorem registry_first_match_resolution (Opts Inst : Type) :
    (∀ (pre post : Registry Opts Inst) (nm : String) (c : HandlerClass Opts Inst)
        (url : String) (opts : Opts),
        (∀ e ∈ pre, e.2.can_handle (e.2.make opts) url = false) →
        c.can_handle (c.make opts) url = true →
        get_downloader_for_url (pre ++ (nm, c) :: post) url opts = .ok (c.make opts)) ∧
    (∀ (reg : Registry Opts Inst) (url : String) (opts : Opts),
        (∀ e ∈ reg, e.2.can_handle (e.2.make opts) url = false) →
        get_downloader_for_url reg url opts =
          .error ("No downloader found for URL: " ++ url)) := by
  constructor
  · intro pre post nm c url opts hpre hc
    induction pre with
    | nil => simp [get_downloader_for_url, hc]
    | cons e rest ih =>
      obtain ⟨n, cls⟩ := e
      have he : cls.can_handle (cls.make opts) url = false := hpre (n, cls) (by simp)
      have hrest : ∀ e ∈ rest, e.2.can_handle (e.2.make opts) url = false :=
        fun e h => hpre e (by simp [h])
      calc get_downloader_for_url (((n, cls) :: rest) ++ (nm, c) :: post) url opts
          = get_downloader_for_url (rest ++ (nm, c) :: post) url opts := by
            rw [List.cons_append]
            simp [get_downloader_for_url, he]
        _ = .ok (c.make opts) := ih hrest
  · intro reg url opts hall
    induction reg with
    | nil => rfl
    | cons e rest ih =>
      obtain ⟨n, cls⟩ := e
      have he : cls.can_handle (cls.make opts) url = false := hall (n, cls) (by simp)
      have hrest : ∀ e ∈ rest, e.2.can_handle (e.2.make opts) url = false :=
        fun e h => hall e (by simp [h])
      simp [get_downloader_for_url, he, ih hrest]

/-- C2 witness: two always-matching handlers resolve to the one registered
first (instance 1, not instance 2), and a never-matching registry yields the
"no handler" error. -/
theorem registry_first_match_resolution_witness :
    get_downloader_for_url sampleRegAB "u" () = .ok 1 ∧
    get_downloader_for_url sampleRegC "u" () = .error "No downloader found for URL: u" := by
  constructor
  · exact (registry_first_match_resolution Unit Nat).1 [] [("b", clsAcceptAll2)]
      "a" clsAcceptAll1 "u" () (by simp) rfl
  · exact (registry_first_match_resolution Unit Nat).2 sampleRegC "u" ()
      (by rintro e he; simp [sampleRegC] at he; subst he; rfl)

theorem find?_overwrite {Opts Inst : Type} (nm : String) (c : HandlerClass Opts Inst) :
    ∀ (reg : Registry Opts Inst), nm ∈ regNames reg →
      ((reg.map (fun e => if e.1 = nm then (nm, c) else e)).find?
        (fun e => e.1 = nm)).map Prod.snd = some c := by
  intro reg
  induction reg with
  | nil => intro h; simp [regNames] at h
  | cons e rest ih =>
    intro h
    by_cases he : e.1 = nm
    · simp [he]
    · have h' : nm ∈ regNames rest := by
        unfold regNames at h
        simp only [List.map_cons, List.mem_cons] at h
        rcases h with h | h
        · exact absurd h.symm he
        · exact h
      simpa [he] using ih h'

/-- C10: re-registering an existing name replaces its class but keeps the
name's original position in the iteration order (Python dict semantics):
the key order is unchanged on overwrite, a fresh name is appended at the
end, the stored class is updated, unregistration removes exactly that name,
and key-uniqueness is preserved — so the resolution order of
`get_downloader_for_url` (which iterates this key order) is the order of
first insertion of each currently registered name. -/
theorem register_keeps_insertion_order (Opts Inst : Type) :
    (∀ (reg : Registry Opts Inst) (nm : String) (c : HandlerClass Opts Inst),
        nm ∈ regNames reg → regNames (register reg nm c) = regNames reg) ∧
    (∀ (reg : Registry Opts Inst) (nm : String) (c : HandlerClass Opts Inst),
        nm ∉ regNames reg → regNames (register reg nm c) = regNames reg ++ [nm]) ∧
    (∀ (reg : Registry Opts Inst) (nm : String) (c : HandlerClass Opts Inst),
        lookupClass (register reg nm c) nm = some c) ∧
    (∀ (reg : Registry Opts Inst) (nm : String),
        regNames (unregister reg nm) = (regNames reg).filter (fun m => decide (m ≠ nm))) ∧
    (∀ (reg : Registry Opts Inst) (nm : String) (c : HandlerClass Opts Inst),
        (regNames reg).Nodup → (regNames (register reg nm c)).Nodup) := by
  have hmem : ∀ (reg : Registry Opts Inst) (nm : String) (c : HandlerClass Opts Inst),
      nm ∈ regNames reg → regNames (register reg nm c) = regNames reg := by
    intro reg nm c hm
    have hc : (regNames reg).contains nm = true := List.elem_eq_true_of_mem hm
    unfold register
    rw [if_pos hc]
    unfold regNames
    rw [List.map_map]
    apply List.map_congr_left
    intro e _
    by_cases he : e.1 = nm <;> simp [he]
  have hfresh : ∀ (reg : Registry Opts Inst) (nm : String) (c : HandlerClass Opts Inst),
      nm ∉ regNames reg → regNames (register reg nm c) = regNames reg ++ [nm] := by
    intro reg nm c hm
    unfold register
    rw [if_neg (by simpa using hm)]
    unfold regNames
    simp
  refine ⟨hmem, hfresh, ?_, ?_, ?_⟩
  · intro reg nm c
    unfold register
    by_cases hm : nm ∈ regNames reg
    · rw [if_pos (List.elem_eq_true_of_mem hm)]
      unfold lookupClass
      exact find?_overwrite nm c reg hm
    · rw [if_neg (by simpa using hm)]
      unfold lookupClass
      have hnone : (reg.find? fun e => e.1 = nm) = none := by
        apply List.find?_eq_none.mpr
        intro e he
        simp only [decide_eq_true_eq]
        intro heq
        apply hm
        unfold regNames
        exact heq ▸ List.mem_map_of_mem Prod.fst he
      rw [List.find?_append, hnone]
      simp
  · intro reg nm
    unfold unregister regNames
    induction reg with
    | nil => rfl
    | cons e rest ih =>
      simp only [ne_eq, decide_not] at ih ⊢
      by_cases he : e.1 = nm <;> simp [List.filter_cons, he, ih]
  · intro reg nm c hnd
    by_cases hm : nm ∈ regNames reg
    · rw [hmem reg nm c hm]; exact hnd
    · rw [hfresh reg nm c hm]
      simp [List.nodup_append, hnd, hm]

/-- C10 witness: overwriting name `"a"` in a registry with keys
`["a", "b"]` keeps the key order `["a", "b"]` and stores the new class. -/
theorem register_keeps_insertion_order_witness :
    regNames (register sampleRegAB "a" clsAcceptAll2) = ["a", "b"] ∧
    lookupClass (register sampleRegAB "a" clsAcceptAll2) "a" = some clsAcceptAll2 := by
  constructor
  · exact ((register_keeps_insertion_order Unit Nat).1 sampleRegAB "a" clsAcceptAll2
      (by simp [sampleRegAB, regNames])).trans (by simp [sampleRegAB, regNames])
  · exact (register_keeps_insertion_order Unit Nat).2.2.1 sampleRegAB "a" clsAcceptAll2

/-! Supporting lemmas for the archive date locator. -/

theorem estimated_page_bounds (daysAgo maxPages : Int) (h : 1 ≤ maxPages) :
    1 ≤ estimated_page daysAgo maxPages ∧ estimated_page daysAgo maxPages ≤ maxPages := by
  unfold estimated_page
  exact ⟨le_min (le_max_left 1 _) h, min_le_right _ _⟩

theorem probe_block_eq_claim_block {e mp : Int} (k : Int)
    (h1 : 1 ≤ e) (h2 : e ≤ mp) (hk : 0 ≤ k) :
    probe_block e mp k = claim_block e mp k := by
  unfold probe_block claim_block
  have hbm : e - k ≤ mp := by omega
  have h1p : 1 ≤ e + k := by omega
  by_cases ha : 1 ≤ e - k <;> by_cases hb : e + k ≤ mp <;>
    simp [List.filter_cons, ha, hb, hbm, h1p]

theorem probe_offsets_eq_claim_offsets {e mp : Int} (h1 : 1 ≤ e) (h2 : e ≤ mp) :
    ∀ n : Nat, probe_offsets e mp n = claim_offsets e mp n := by
  intro n
  induction n with
  | zero => rfl
  | succ k ih =>
    unfold probe_offsets claim_offsets
    rw [ih, probe_block_eq_claim_block ((k : Int) + 1) h1 h2 (by omega)]

theorem mem_probe_block {e mp k p : Int} (h1 : 1 ≤ e) (h2 : e ≤ mp)
    (hk : 0 ≤ k) (hp : p ∈ probe_block e mp k) : 1 ≤ p ∧ p ≤ mp := by
  unfold probe_block at hp
  rcases List.mem_append.mp hp with h | h
  · by_cases hc : 1 ≤ e - k
    · rw [if_pos hc] at h
      simp at h
      omega
    · rw [if_neg hc] at h
      simp at h
  · by_cases hc : e + k ≤ mp
    · rw [if_pos hc] at h
      simp at h
      omega
    · rw [if_neg hc] at h
      simp at h

theorem mem_probe_offsets {e mp p : Int} (h1 : 1 ≤ e) (h2 : e ≤ mp) :
    ∀ n : Nat, p ∈ probe_offsets e mp n → 1 ≤ p ∧ p ≤ mp := by
  intro n
  induction n with
  | zero => intro h; simp [probe_offsets] at h
  | succ k ih =>
    intro h
    unfold probe_offsets at h
    rcases List.mem_append.mp h with h | h
    · exact ih h
    · exact mem_probe_block h1 h2 (by omega) h

theorem firstSome_append (f : Int → Option String) (l1 l2 : List Int) :
    firstSome f (l1 ++ l2) =
      match firstSome f l1 with
      | some r => some r
      | none => firstSome f l2 := by
  induction l1 with
  | nil => rfl
  | cons p ps ih =>
    rw [List.cons_append]
    cases hf : f p with
    | some r => simp [firstSome, hf]
    | none => simp [firstSome, hf, ih]

theorem firstSome_eq_none_iff (f : Int → Option String) (l : List Int) :
    firstSome f l = none ↔ ∀ p ∈ l, f p = none := by
  induction l with
  | nil => simp [firstSome]
  | cons p ps ih =>
    unfold firstSome
    cases hf : f p with
    | some r => simp [hf]
    | none => simp [hf, ih]

theorem locate_eq_firstSome_probe (fetch : String → Except Unit String)
    (extract : String → Option String) (dateStr : String) (daysAgo maxPages : Int)
    (html : String) (hfast : fetch (dateSearchUrl dateStr) = .ok html)
    (hex : extract html = none) :
    get_devotional_url_by_date fetch extract dateStr daysAgo maxPages =
      firstSome (check_page fetch extract)
        (full_probe_list (estimated_page daysAgo maxPages) maxPages) := by
  unfold get_devotional_url_by_date
  rw [hfast]
  simp only []
  rw [hex]
  unfold full_probe_list
  rw [firstSome_append]
  cases hfs : firstSome (check_page fetch extract)
      (pages_to_check (estimated_page daysAgo maxPages) maxPages) with
  | some r => rfl
  | none =>
    by_cases hm : (1 : Int) ∈ pages_to_check (estimated_page daysAgo maxPages) maxPages
    · simp [hm, firstSome]
    · simp only [if_neg hm]
      unfold firstSome
      cases check_page fetch extract 1 <;> rfl

/-- C3: for every target date (`daysAgo`) and every `maxPages ≥ 1`, when the
fast path yields no link the locator's estimate is
`max(1, daysAgo // 10)` clamped to `[1, maxPages]`, and the pages it probes
are exactly, in order: the estimate, then `estimate - k` / `estimate + k`
alternately for `k = 1..5` with candidates outside `[1, maxPages]` dropped,
then page 1 once more when not already probed; every probed page lies in
`[1, maxPages]`. -/
theorem probe_order_matches_claim (daysAgo maxPages : Int) (hmp : 1 ≤ maxPages) :
    (1 ≤ estimated_page daysAgo maxPages ∧ estimated_page daysAgo maxPages ≤ maxPages) ∧
    full_probe_list (estimated_page daysAgo maxPages) maxPages =
      claim_probe_order (estimated_page daysAgo maxPages) maxPages ∧
    (∀ p ∈ full_probe_list (estimated_page daysAgo maxPages) maxPages,
      1 ≤ p ∧ p ≤ maxPages) ∧
    (∀ (fetch : String → Except Unit String) (extract : String → Option String)
        (dateStr : String) (html : String),
        fetch (dateSearchUrl dateStr) = .ok html → extract html = none →
        get_devotional_url_by_date fetch extract dateStr daysAgo maxPages =
          firstSome (check_page fetch extract)
            (full_probe_list (estimated_page daysAgo maxPages) maxPages)) := by
  obtain ⟨h1, h2⟩ := estimated_page_bounds daysAgo maxPages hmp
  refine ⟨⟨h1, h2⟩, ?_, ?_, ?_⟩
  · unfold full_probe_list claim_probe_order pages_to_check
    rw [probe_offsets_eq_claim_offsets h1 h2 5]
  · intro p hp
    unfold full_probe_list at hp
    rcases List.mem_append.mp hp with h | h
    · unfold pages_to_check at h
      rcases List.mem_cons.mp h with rfl | h
      · exact ⟨h1, h2⟩
      · exact mem_probe_offsets h1 h2 5 h
    · by_cases hm : (1 : Int) ∈ pages_to_check (estimated_page daysAgo maxPages) maxPages
      · rw [if_pos hm] at h
        simp at h
      · rw [if_neg hm] at h
        simp at h
        omega
  · intro fetch extract dateStr html hfast hex
    exact locate_eq_firstSome_probe fetch extract dateStr daysAgo maxPages html hfast hex

/-- C3 witness: a date 50 days old with `maxPages = 324` estimates page 5
and probes exactly `[5, 4, 6, 3, 7, 2, 8, 1, 9, 10]` (page 1 already
included, so no extra final probe); with a fetch that finds nothing the
locator returns "not found" after that exact probe sequence. -/
theorem probe_order_matches_claim_witness :
    (1 : Int) ≤ 324 ∧
    (1 ≤ estimated_page 50 324 ∧ estimated_page 50 324 ≤ 324) ∧
    full_probe_list (estimated_page 50 324) 324 = [5, 4, 6, 3, 7, 2, 8, 1, 9, 10] ∧
    get_devotional_url_by_date okFetch noneExtract "2025-01-01" 50 324 =
      firstSome (check_page okFetch noneExtract) (full_probe_list (estimated_page 50 324) 324) :=
  ⟨by decide,
   (probe_order_matches_claim 50 324 (by decide)).1,
   by decide,
   (probe_order_matches_claim 50 324 (by decide)).2.2.2 okFetch noneExtract
     "2025-01-01" "EMPTY" rfl rfl⟩

/-- C8 (amended): a fetch exception on a candidate archive page is swallowed
by `check_page` and treated as "not found on this page", probing continues,
and — when the fast-path fetch succeeds without a match — the locator
returns "not found" exactly when every candidate page (the probe list plus
the final page-1 fallback) reports nothing.  A fetch exception on the
fast-path query, however, is caught by the outer handler and returns "not
found" immediately, without probing any candidate page. -/
theorem probe_exception_handling :
    (∀ (fetch : String → Except Unit String) (extract : String → Option String)
        (page : Int), fetch (archivePageUrl page) = .error () →
        check_page fetch extract page = none) ∧
    (∀ (fetch : String → Except Unit String) (extract : String → Option String)
        (dateStr : String) (daysAgo maxPages : Int) (html : String),
        fetch (dateSearchUrl dateStr) = .ok html → extract html = none →
        (get_devotional_url_by_date fetch extract dateStr daysAgo maxPages = none ↔
          ∀ p ∈ full_probe_list (estimated_page daysAgo maxPages) maxPages,
            check_page fetch extract p = none)) ∧
    (∀ (fetch : String → Except Unit String) (extract : String → Option String)
        (dateStr : String) (daysAgo maxPages : Int),
        fetch (dateSearchUrl dateStr) = .error () →
        get_devotional_url_by_date fetch extract dateStr daysAgo maxPages = none) := by
  refine ⟨?_, ?_, ?_⟩
  · intro fetch extract page herr
    unfold check_page
    rw [herr]
  · intro fetch extract dateStr daysAgo maxPages html hfast hex
    rw [locate_eq_firstSome_probe fetch extract dateStr daysAgo maxPages html hfast hex]
    exact firstSome_eq_none_iff _ _
  · intro fetch extract dateStr daysAgo maxPages herr
    unfold get_devotional_url_by_date
    rw [herr]

/-- C8 witness: the theorem instantiated on the concrete failing fetch: the
fast-path fetch raises, and the locator reports "not found". -/
theorem probe_exception_handling_witness :
    cexFetch (dateSearchUrl "2025-01-01") = .error () ∧
    get_devotional_url_by_date cexFetch cexExtract "2025-01-01" 50 324 = none :=
  ⟨rfl, probe_exception_handling.2.2 cexFetch cexExtract "2025-01-01" 50 324 rfl⟩

/-- C8 counterexample: the claim says a fast-path fetch exception is treated
as "not found on this page" with probing continuing to the candidate pages.
Concretely: the fast-path fetch raises while every archive page contains the
date and its link — `check_page` on the estimated page (page 5) would return
the link — yet the locator returns `none` without probing anything,
contradicting "probing continues with the next candidate" and "None only
after every candidate page is exhausted". -/
theorem fastpath_exception_aborts_probing :
    get_devotional_url_by_date cexFetch cexExtract "2025-01-01" 50 324 = none ∧
    check_page cexFetch cexExtract (estimated_page 50 324) =
      some "https://www.keysforkids.org/podcast/keys-for-kids/x/" := by
  constructor
  · decide
  · decide

/-- Days iterated by a range batch are strictly ascending. -/
theorem daysListGo_lower : ∀ (n : Nat) (d m : Int), m ∈ daysListGo n d → d ≤ m := by
  intro n
  induction n with
  | zero => intro d m h; simp [daysListGo] at h
  | succ k ih =>
    intro d m h
    unfold daysListGo at h
    rcases List.mem_cons.mp h with rfl | h
    · exact le_refl m
    · have := ih (d + 1) m h
      omega

theorem daysListGo_pairwise : ∀ (n : Nat) (d : Int),
    (daysListGo n d).Pairwise (· < ·) := by
  intro n
  induction n with
  | zero => intro d; simp [daysListGo]
  | succ k ih =>
    intro d
    unfold daysListGo
    refine List.pairwise_cons.mpr ⟨?_, ih (d + 1)⟩
    intro m hm
    have := daysListGo_lower k (d + 1) m hm
    omega

theorem download_range_go_ok (locate : Int → Option String)
    (dv : String → Except Unit String) (hok : ∀ u, ∃ p, dv u = .ok p) :
    ∀ (n : Nat) (d : Int),
      download_range_go locate dv n d =
        .ok ((daysListGo n d).filterMap
          (fun x => (locate x).bind (fun u => exceptOk (dv u)))) := by
  intro n
  induction n with
  | zero => intro d; rfl
  | succ k ih =>
    intro d
    unfold download_range_go daysListGo
    cases hl : locate d with
    | none => simp [download_by_date, hl, ih]
    | some url =>
      obtain ⟨pth, hp⟩ := hok url
      simp [download_by_date, hl, hp, ih, exceptOk]

/-- C7 (amended): a date-range batch invokes the locator once per calendar
day in ascending order; a day that resolves to "not found" (including locate
errors, which `get_devotional_url_by_date` itself converts to "not found")
is skipped, and when every download succeeds the batch returns exactly the
successful results — so a 3-day batch whose middle day is not found returns
2 results.  (A download failure on a located day, by contrast, propagates
and aborts the batch; see the counterexample.) -/
theorem date_range_skips_not_found (locate : Int → Option String)
    (dv : String → Except Unit String) (start stop : Int)
    (hok : ∀ u, ∃ p, dv u = .ok p) :
    download_date_range locate dv start stop =
      .ok ((daysList start stop).filterMap
        (fun d => (locate d).bind (fun u => exceptOk (dv u)))) ∧
    (daysList start stop).Pairwise (· < ·) :=
  ⟨download_range_go_ok locate dv hok ((stop + 1 - start).toNat) start,
   daysListGo_pairwise _ _⟩

/-- C7 witness: a 3-day batch (days 0..2) whose middle day is not found,
with every download succeeding, returns exactly the 2 successful results. -/
theorem date_range_skips_not_found_witness :
    (∀ u, ∃ p, okDownload u = .ok p) ∧
    download_date_range wLocate okDownload 0 2 = .ok ["u", "u"] := by
  refine ⟨fun u => ⟨u, rfl⟩, ?_⟩
  rw [(date_range_skips_not_found wLocate okDownload 0 2 (fun u => ⟨u, rfl⟩)).1]
  rfl

/-- C7 counterexample: the claim says a day that fails is skipped rather
than aborting the batch.  Concretely: every day of the 3-day batch locates a
page, days 0 and 2 download fine on their own, but day 1's download raises —
and the batch aborts with the exception instead of returning the two
successful results. -/
theorem download_failure_aborts_range :
    download_date_range cexLocate cexDownload 0 2 = .error () ∧
    download_by_date cexLocate cexDownload 0 = .ok (some "good") ∧
    download_by_date cexLocate cexDownload 2 = .ok (some "good") :=
  ⟨rfl, rfl, rfl⟩

/-! Supporting lemmas for the URL pattern matchers. -/

theorem charOfNat_toNat (n : Nat) (h : n.isValidChar) : (Char.ofNat n).toNat = n := by
  unfold Char.ofNat
  rw [dif_pos h]
  rfl

theorem lowerChar_idem (c : Char) : lowerChar (lowerChar c) = lowerChar c := by
  by_cases h : 65 ≤ c.toNat ∧ c.toNat ≤ 90
  · have h1 : lowerChar c = Char.ofNat (c.toNat + 32) := by
      unfold lowerChar
      rw [if_pos h]
    rw [h1]
    unfold lowerChar
    rw [charOfNat_toNat (c.toNat + 32) (Or.inl (by omega))]
    rw [if_neg (by omega)]
  · have h1 : lowerChar c = c := by
      unfold lowerChar
      rw [if_neg h]
    rw [h1, h1]

theorem lowerL_idem (cs : List Char) : lowerL (lowerL cs) = lowerL cs := by
  unfold lowerL
  rw [List.map_map]
  apply List.map_congr_left
  intro c _
  exact lowerChar_idem c

theorem dropLit_eq_some {lit cs r : List Char} :
    dropLit lit cs = some r ↔ cs = lit ++ r := by
  unfold dropLit
  by_cases h : lit.isPrefixOf cs
  · rw [if_pos h]
    rw [List.isPrefixOf_iff_prefix] at h
    obtain ⟨t, ht⟩ := h
    subst ht
    rw [List.drop_left]
    constructor
    · rintro ⟨rfl⟩
      rfl
    · intro ha
      exact congrArg some (List.append_cancel_left ha)
  · rw [if_neg h]
    constructor
    · intro hco
      cases hco
    · intro hcs
      exfalso
      apply h
      rw [List.isPrefixOf_iff_prefix, hcs]
      exact List.prefix_append lit r

theorem dropLit_self (lit r : List Char) : dropLit lit (lit ++ r) = some r :=
  dropLit_eq_some.mpr rfl

theorem optScheme_decomp (cs : List Char) :
    ∃ sc, SchemePart sc ∧ cs = sc ++ optScheme cs := by
  unfold optScheme
  cases h1 : dropLit "https://".data cs with
  | some r => exact ⟨"https://".data, Or.inr (Or.inr rfl), dropLit_eq_some.mp h1⟩
  | none =>
    cases h2 : dropLit "http://".data cs with
    | some r => exact ⟨"http://".data, Or.inr (Or.inl rfl), dropLit_eq_some.mp h2⟩
    | none => exact ⟨[], Or.inl rfl, rfl⟩

theorem optWwwStep_decomp (b : Bool) (cs : List Char) :
    ∃ w, WwwPart b w ∧ cs = w ++ (if b then optWww cs else cs) := by
  cases b with
  | false => exact ⟨[], Or.inl rfl, rfl⟩
  | true =>
    simp only [if_pos]
    unfold optWww
    cases h : dropLit "www.".data cs with
    | some r => exact ⟨"www.".data, Or.inr ⟨rfl, rfl⟩, dropLit_eq_some.mp h⟩
    | none => exact ⟨[], Or.inl rfl, rfl⟩

theorem dropLit_ne_head (lit : List Char) (c0 : Char) (hlit : lit.head? = some c0)
    {c : Char} {r : List Char} (hne : c ≠ c0) {l0 : List Char}
    (hl0 : l0 = c :: r) : dropLit lit l0 = none := by
  subst hl0
  unfold dropLit
  rw [if_neg]
  intro hpf
  rw [List.isPrefixOf_iff_prefix] at hpf
  obtain ⟨t, ht⟩ := hpf
  have hh : (lit ++ t).head? = some c0 := by
    cases lit with
    | nil => cases hlit
    | cons a as =>
      have : a = c0 := by simpa using hlit
      simp [this]
  rw [ht] at hh
  simp at hh
  exact hne hh

theorem optScheme_strip {sc X : List Char} (hsc : SchemePart sc)
    {c : Char} {r : List Char} (hX : X = c :: r) (hch : c ≠ 'h') :
    optScheme (sc ++ X) = X := by
  rcases hsc with rfl | rfl | rfl
  · rw [List.nil_append]
    unfold optScheme
    rw [dropLit_ne_head "https://".data 'h' rfl hch hX,
      dropLit_ne_head "http://".data 'h' rfl hch hX]
  · unfold optScheme
    have h1 : dropLit "https://".data ("http://".data ++ X) = none := by
      unfold dropLit
      rw [if_neg]
      intro hpf
      rw [List.isPrefixOf_iff_prefix] at hpf
      obtain ⟨t, ht⟩ := hpf
      have h4 : ("https://".data ++ t).get? 4 = some 's' := rfl
      have h4' : ("http://".data ++ X).get? 4 = some ':' := rfl
      rw [ht, h4'] at h4
      exact absurd (Option.some.inj h4) (by decide)
    rw [h1, dropLit_self]
  · unfold optScheme
    rw [dropLit_self]

theorem wwwStep_strip {b : Bool} {w X : List Char} (hw : WwwPart b w)
    {c : Char} {r : List Char} (hX : X = c :: r) (hcw : c ≠ 'w') :
    (if b then optWww (w ++ X) else w ++ X) = X := by
  rcases hw with rfl | ⟨hb, rfl⟩
  · rw [List.nil_append]
    cases b with
    | false => rfl
    | true =>
      simp only [if_pos]
      unfold optWww
      rw [dropLit_ne_head "www.".data 'w' rfl hcw hX]
  · subst hb
    simp only [if_pos]
    unfold optWww
    rw [dropLit_self]

theorem tailMatch_forward {k : TailKind} {rest : List Char}
    (h : tailMatch k rest = true) :
    ∃ t suf, rest = t ++ suf ∧ TailLang k t := by
  cases k with
  | wordDash =>
    cases rest with
    | nil => simp [tailMatch] at h
    | cons c cs =>
      refine ⟨[c], cs, rfl, by simp, ?_⟩
      intro x hx
      rw [List.mem_singleton] at hx
      subst hx
      simpa [tailMatch] using h
  | digits =>
    cases rest with
    | nil => simp [tailMatch] at h
    | cons c cs =>
      refine ⟨[c], cs, rfl, by simp, ?_⟩
      intro x hx
      rw [List.mem_singleton] at hx
      subst hx
      simpa [tailMatch] using h
  | wordDashSlashWordDash =>
    have hsplit : (!(rest.takeWhile isWordDash).isEmpty &&
        (match rest.dropWhile isWordDash with
         | d :: c :: _ => decide (d = '/') && isWordDash c
         | _ => false)) = true := h
    rw [Bool.and_eq_true] at hsplit
    obtain ⟨h1, h2⟩ := hsplit
    cases hdrop : rest.dropWhile isWordDash with
    | nil => rw [hdrop] at h2; simp at h2
    | cons d ds =>
      cases ds with
      | nil => rw [hdrop] at h2; simp at h2
      | cons c w =>
        rw [hdrop] at h2
        have h2' : (decide (d = '/') && isWordDash c) = true := h2
        rw [Bool.and_eq_true, decide_eq_true_eq] at h2'
        obtain ⟨rfl, hc⟩ := h2'
        refine ⟨rest.takeWhile isWordDash ++ '/' :: [c], w, ?_, ?_⟩
        · conv_lhs => rw [← List.takeWhile_append_dropWhile isWordDash rest]
          rw [hdrop]
          simp
        · refine ⟨rest.takeWhile isWordDash, [c], rfl, ?_, by simp, ?_, ?_⟩
          · intro hemp
            rw [hemp] at h1
            simp at h1
          · intro x hx
            exact List.mem_takeWhile_imp hx
          · intro x hx
            rw [List.mem_singleton] at hx
            subst hx
            exact hc

theorem tailMatch_backward {k : TailKind} {t : List Char} (h : TailLang k t)
    (suf : List Char) : tailMatch k (t ++ suf) = true := by
  cases k with
  | wordDash =>
    obtain ⟨hne, hall⟩ := h
    cases t with
    | nil => exact absurd rfl hne
    | cons c cs => simpa [tailMatch] using hall c (by simp)
  | digits =>
    obtain ⟨hne, hall⟩ := h
    cases t with
    | nil => exact absurd rfl hne
    | cons c cs => simpa [tailMatch] using hall c (by simp)
  | wordDashSlashWordDash =>
    obtain ⟨a, b, rfl, ha, hb, hA, hB⟩ := h
    have hassoc : (a ++ '/' :: b) ++ suf = a ++ '/' :: (b ++ suf) := by simp
    rw [hassoc]
    have hslash : isWordDash '/' = false := by decide
    have htake : (a ++ '/' :: (b ++ suf)).takeWhile isWordDash = a := by
      rw [List.takeWhile_append_of_pos hA]
      simp [List.takeWhile_cons, hslash]
    have hdrop : (a ++ '/' :: (b ++ suf)).dropWhile isWordDash = '/' :: (b ++ suf) := by
      rw [List.dropWhile_append_of_pos hA]
      simp [List.dropWhile_cons, hslash]
    show (!((a ++ '/' :: (b ++ suf)).takeWhile isWordDash).isEmpty &&
        (match (a ++ '/' :: (b ++ suf)).dropWhile isWordDash with
         | d :: c :: _ => decide (d = '/') && isWordDash c
         | _ => false)) = true
    rw [htake, hdrop]
    cases b with
    | nil => exact absurd rfl hb
    | cons c bs =>
      have h1 : (!a.isEmpty) = true := by
        cases a with
        | nil => exact absurd rfl ha
        | cons a0 as => rfl
      have h2 : (decide (('/' : Char) = '/') && isWordDash c) = true := by
        simp [hB c (by simp)]
      rw [Bool.and_eq_true]
      exact ⟨h1, h2⟩

theorem runPattern_iff (p : UrlPattern) (c0 : Char) (lrest : List Char)
    (hlit : p.lit = c0 :: lrest) (hh : c0 ≠ 'h') (hw : c0 ≠ 'w') (cs : List Char) :
    runPattern p cs = true ↔ ∃ pre suf, cs = pre ++ suf ∧ PatMatches p pre := by
  constructor
  · intro hrun
    unfold runPattern at hrun
    obtain ⟨sc, hsc, hdec1⟩ := optScheme_decomp cs
    obtain ⟨w, hwpart, hdec2⟩ := optWwwStep_decomp p.www_opt (optScheme cs)
    cases hdl : dropLit p.lit (if p.www_opt then optWww (optScheme cs) else optScheme cs) with
    | none => rw [hdl] at hrun; cases hrun
    | some rest =>
      rw [hdl] at hrun
      obtain ⟨t, suf, hrt, htl⟩ := tailMatch_forward hrun
      refine ⟨sc ++ w ++ p.lit ++ t, suf, ?_, sc, w, t, hsc, hwpart, htl, rfl⟩
      have h2 : (if p.www_opt then optWww (optScheme cs) else optScheme cs) =
          p.lit ++ rest := dropLit_eq_some.mp hdl
      calc cs = sc ++ optScheme cs := hdec1
        _ = sc ++ (w ++ (if p.www_opt then optWww (optScheme cs) else optScheme cs)) := by
            rw [← hdec2]
        _ = sc ++ (w ++ (p.lit ++ (t ++ suf))) := by rw [h2, hrt]
        _ = (sc ++ w ++ p.lit ++ t) ++ suf := by simp [List.append_assoc]
  · rintro ⟨pre, suf, hcs, sc, w, t, hsc, hwpart, htl, hpre⟩
    subst hpre
    subst hcs
    unfold runPattern
    have hassoc : (sc ++ w ++ p.lit ++ t) ++ suf = sc ++ (w ++ (p.lit ++ (t ++ suf))) := by
      simp [List.append_assoc]
    rw [hassoc]
    have hscheme : optScheme (sc ++ (w ++ (p.lit ++ (t ++ suf)))) =
        w ++ (p.lit ++ (t ++ suf)) := by
      rcases hwpart with rfl | ⟨hb, rfl⟩
      · have hXeq : ([] : List Char) ++ (p.lit ++ (t ++ suf)) =
            c0 :: (lrest ++ (t ++ suf)) := by
          rw [List.nil_append, hlit, List.cons_append]
        exact optScheme_strip hsc hXeq hh
      · have hXeq : ("www.".data : List Char) ++ (p.lit ++ (t ++ suf)) =
            'w' :: ("ww.".data ++ (p.lit ++ (t ++ suf))) := rfl
        exact optScheme_strip hsc hXeq (by decide)
    rw [hscheme]
    have hXlit : p.lit ++ (t ++ suf) = c0 :: (lrest ++ (t ++ suf)) := by
      rw [hlit, List.cons_append]
    have hwww : (if p.www_opt then optWww (w ++ (p.lit ++ (t ++ suf)))
        else w ++ (p.lit ++ (t ++ suf))) = p.lit ++ (t ++ suf) :=
      wwwStep_strip hwpart hXlit hw
    rw [hwww, dropLit_self]
    exact tailMatch_backward htl suf

theorem runPattern_iff_of_mem {p : UrlPattern}
    (hp : p ∈ YOUTUBE_PATTERNS ++ CBN_PATTERNS) (cs : List Char) :
    runPattern p cs = true ↔ ∃ pre suf, cs = pre ++ suf ∧ PatMatches p pre := by
  simp only [YOUTUBE_PATTERNS, CBN_PATTERNS, List.cons_append, List.nil_append,
    List.mem_cons, List.not_mem_nil, or_false] at hp
  rcases hp with rfl | rfl | rfl | rfl | rfl | rfl | rfl | rfl | rfl
  · exact runPattern_iff _ 'y' "outube.com/watch?v=".data rfl (by decide) (by decide) cs
  · exact runPattern_iff _ 'y' "outube.com/playlist?list=".data rfl (by decide) (by decide) cs
  · exact runPattern_iff _ 'y' "outu.be/".data rfl (by decide) (by decide) cs
  · exact runPattern_iff _ 'y' "outube.com/channel/".data rfl (by decide) (by decide) cs
  · exact runPattern_iff _ 'y' "outube.com/@".data rfl (by decide) (by decide) cs
  · exact runPattern_iff _ 'y' "outube.com/c/".data rfl (by decide) (by decide) cs
  · exact runPattern_iff _ 'c' "bn.com/video/".data rfl (by decide) (by decide) cs
  · exact runPattern_iff _ 'c' "bn.com/video/flying-house-episode-".data rfl
      (by decide) (by decide) cs
  · exact runPattern_iff _ 'c' "bn.com/shows/".data rfl (by decide) (by decide) cs

theorem containsSub_iff (needle hay : List Char) :
    containsSub needle hay = true ↔ ∃ a b, hay = a ++ needle ++ b := by
  induction hay with
  | nil =>
    unfold containsSub
    constructor
    · intro h
      have hn : needle = [] := by
        cases needle with
        | nil => rfl
        | cons x xs => simp at h
      exact ⟨[], [], by simp [hn]⟩
    · rintro ⟨a, b, hab⟩
      have := hab.symm
      rw [List.append_eq_nil] at this
      rw [List.append_eq_nil] at this
      simp [this.1.2]
  | cons c cs ih =>
    unfold containsSub
    rw [Bool.or_eq_true]
    constructor
    · rintro (h | h)
      · rw [List.isPrefixOf_iff_prefix] at h
        obtain ⟨t, ht⟩ := h
        exact ⟨[], t, by simp [← ht]⟩
      · obtain ⟨a, b, hab⟩ := ih.mp h
        exact ⟨c :: a, b, by simp [hab]⟩
    · rintro ⟨a, b, hab⟩
      cases a with
      | nil =>
        left
        rw [List.isPrefixOf_iff_prefix]
        exact ⟨b, by simpa using hab.symm⟩
      | cons a0 as =>
        right
        apply ih.mpr
        refine ⟨as, b, ?_⟩
        have : c :: cs = a0 :: (as ++ needle ++ b) := by simpa using hab
        exact (List.cons.injEq _ _ _ _ ▸ this).2

/-- C9 (amended): the YouTube and CBN handlers accept a URL iff one of their
hand-compiled fixed patterns matches a prefix of the URL anchored at the
start (after the ASCII lowercasing that `re.IGNORECASE` amounts to on these
all-lowercase patterns), and those checks are invariant under ASCII case
changes of the URL; the KeysForKids handler instead tests, case-sensitively,
whether `'keysforkids.org'` occurs as a substring of the URL's parsed
network-location component.  None of the checks involves a network fetch:
they are pure functions of the URL string. -/
theorem can_handle_characterization :
    (∀ p ∈ YOUTUBE_PATTERNS ++ CBN_PATTERNS, ∀ cs : List Char,
        runPattern p cs = true ↔ ∃ pre suf, cs = pre ++ suf ∧ PatMatches p pre) ∧
    (∀ url : String, youtube_can_handle url = true ↔
        ∃ p ∈ YOUTUBE_PATTERNS, ∃ pre suf,
          lowerL url.data = pre ++ suf ∧ PatMatches p pre) ∧
    (∀ url : String, cbn_can_handle url = true ↔
        ∃ p ∈ CBN_PATTERNS, ∃ pre suf,
          lowerL url.data = pre ++ suf ∧ PatMatches p pre) ∧
    (∀ url : String, youtube_can_handle (lowerStr url) = youtube_can_handle url) ∧
    (∀ url : String, cbn_can_handle (lowerStr url) = cbn_can_handle url) ∧
    (∀ url : String, kfk_can_handle url = true ↔
        ∃ a b, urlparse_netloc url = a ++ "keysforkids.org".data ++ b) := by
  refine ⟨?_, ?_, ?_, ?_, ?_, ?_⟩
  · intro p hp cs
    exact runPattern_iff_of_mem hp cs
  · intro url
    unfold youtube_can_handle
    rw [List.any_eq_true]
    constructor
    · rintro ⟨p, hp, hrun⟩
      exact ⟨p, hp, (runPattern_iff_of_mem (List.mem_append_left _ hp) _).mp hrun⟩
    · rintro ⟨p, hp, hm⟩
      exact ⟨p, hp, (runPattern_iff_of_mem (List.mem_append_left _ hp) _).mpr hm⟩
  · intro url
    unfold cbn_can_handle
    rw [List.any_eq_true]
    constructor
    · rintro ⟨p, hp, hrun⟩
      exact ⟨p, hp, (runPattern_iff_of_mem (List.mem_append_right _ hp) _).mp hrun⟩
    · rintro ⟨p, hp, hm⟩
      exact ⟨p, hp, (runPattern_iff_of_mem (List.mem_append_right _ hp) _).mpr hm⟩
  · intro url
    unfold youtube_can_handle
    have hdata : (lowerStr url).data = lowerL url.data := rfl
    rw [hdata, lowerL_idem]
  · intro url
    unfold cbn_can_handle
    have hdata : (lowerStr url).data = lowerL url.data := rfl
    rw [hdata, lowerL_idem]
  · intro url
    unfold kfk_can_handle
    exact containsSub_iff _ _

/-- C9 witness: the theorem instantiated on concrete URLs: the YouTube check
is invariant under uppercasing the URL, the watch pattern accepts a canonical
watch URL (membership hypothesis discharged on the first pattern), and the
KeysForKids check accepts its host. -/
theorem can_handle_characterization_witness :
    youtube_can_handle (lowerStr "HTTPS://WWW.YOUTUBE.COM/WATCH?V=ABC") =
      youtube_can_handle "HTTPS://WWW.YOUTUBE.COM/WATCH?V=ABC" ∧
    (runPattern ⟨true, "youtube.com/watch?v=".data, TailKind.wordDash⟩
        "youtube.com/watch?v=abc".data = true ↔
      ∃ pre suf, "youtube.com/watch?v=abc".data = pre ++ suf ∧
        PatMatches ⟨true, "youtube.com/watch?v=".data, TailKind.wordDash⟩ pre) ∧
    youtube_can_handle "https://www.youtube.com/watch?v=abc" = true ∧
    kfk_can_handle "https://www.keysforkids.org/" = true :=
  ⟨can_handle_characterization.2.2.2.1 "HTTPS://WWW.YOUTUBE.COM/WATCH?V=ABC",
   can_handle_characterization.1 _ (by decide) _,
   by decide, by decide⟩

/-- C9 counterexample: `KeysForKidsDownloader.can_handle` is not a
case-insensitive pattern match on the URL: the two URLs below differ only in
ASCII letter case (third conjunct), so any disjunction of case-insensitive
matchers would answer the same on both, yet `can_handle` accepts the
lowercase one and rejects the uppercase one — it is a case-sensitive
substring test on the parsed host. -/
theorem kfk_can_handle_case_sensitive :
    kfk_can_handle "https://www.keysforkids.org/" = true ∧
    kfk_can_handle "https://WWW.KEYSFORKIDS.ORG/" = false ∧
    lowerStr "https://WWW.KEYSFORKIDS.ORG/" = "https://www.keysforkids.org/" := by
  refine ⟨by decide, by decide, by decide⟩

end Abedl
